import Mathlib

/-!
Verification of the events-aggregator service core.

Shallow embedding of `src/app/events_aggregator.py` and `src/app/pipelines.py`:
Python integers become `Int`; Python's `%` on integers (non-negative result for
a positive modulus) is Lean's `Int.emod`, which `%` denotes on `Int`; the
MongoDB aggregation pipeline built by `aggregate_events` is embedded by its
documented stage semantics over an explicit list of stored records.
-/

namespace EventsAggregator

/-- The `TIME_RESOLUTIONS` dictionary of `events_aggregator.py`: the sampling
resolutions, a mapping from resolution name to bucket width in seconds. -/
def TIME_RESOLUTIONS : List (String × Int) := [("hour", 3600), ("day", 86400)]

/-- `JSONRequestHandler._round_time`: `int(time - (time % resolution))` with
Python integer modulo semantics. -/
def round_time (time resolution : Int) : Int :=
  time - time % resolution

/-- A raw event as submitted to `POST /event`:
`{"type": ..., "object_id": ..., "time": ...}`. -/
structure RawEvent where
  type : String
  object_id : Int
  time : Int
deriving DecidableEq

/-- A stored record, as inserted by `EventsHandler.post`:
`{"type": data["type"], "time": timestamp, "object_id": data["object_id"]}`.
The `time` field holds the bucketed timestamp. -/
structure RollupRecord where
  type : String
  time : Int
  object_id : Int
deriving DecidableEq

/-- `EventsHandler._prepare_timestamps_for_insert`: one rounded timestamp per
entry of the resolution table, in table order. -/
def prepare_timestamps_for_insert (time : Int) (resolutions : List (String × Int)) :
    List Int :=
  resolutions.map (fun p => round_time time p.2)

/-- `EventsHandler.post`: the documents handed to `db.events.insert`, one per
resolution, with `type` and `object_id` copied from the request unchanged. -/
def events_post (data : RawEvent) (resolutions : List (String × Int)) :
    List RollupRecord :=
  (prepare_timestamps_for_insert data.time resolutions).map
    (fun ts => { type := data.type, time := ts, object_id := data.object_id })

/-- The `$match` stage of `pipelines.aggregate_events`: keep the records with
the requested `object_id` whose `time` satisfies `$gte: start` and
`$lte: end`. -/
def matchRecords (object_id start_ end_ : Int) (records : List RollupRecord) :
    List RollupRecord :=
  records.filter
    (fun r => r.object_id == object_id && decide (start_ ≤ r.time) && decide (r.time ≤ end_))

/-- Distinct grouping keys of a record list in first-occurrence order. MongoDB
`$group` produces one output document per distinct key; the order among group
documents is unspecified, and this embedding fixes first-occurrence order. -/
def collectKeys {α κ : Type} [DecidableEq κ] (key : α → κ) (xs : List α) : List κ :=
  xs.foldl (fun acc x => if key x ∈ acc then acc else acc ++ [key x]) []

/-- The first `$group` stage (with the following `$project`): group by
`{type, time}`; each group carries `count = $sum 1`, the number of records in
the group. -/
def groupCount (records : List RollupRecord) : List ((String × Int) × Nat) :=
  (collectKeys (fun r => (r.type, r.time)) records).map
    (fun k => (k, (records.filter (fun r => decide ((r.type, r.time) = k))).length))

/-- The second `$group` stage (with the final `$project`): group the per-bucket
counts by `type`; each type carries the pushed list of
`{events: count, time}` pairs, here `(time, events)`. -/
def collectStage (counts : List ((String × Int) × Nat)) :
    List (String × List (Int × Nat)) :=
  (collectKeys (fun c => c.1.1) counts).map
    (fun ty => (ty, (counts.filter (fun c => decide (c.1.1 = ty))).map (fun c => (c.1.2, c.2))))

/-- `pipelines.aggregate_events` run over a store: `$match`, then the counting
`$group`, then the collecting `$group`. `StatsHandler._on_post_response` turns
the resulting documents into the `type -> events` mapping, which this
association list already is. -/
def aggregate_events (object_id start_ end_ : Int) (records : List RollupRecord) :
    List (String × List (Int × Nat)) :=
  collectStage (groupCount (matchRecords object_id start_ end_ records))

/-- `StatsHandler._compute_start_and_end`: `now` is the current time rounded to
the resolution, the window is `(now - resolution * limit, now)`. -/
def compute_start_and_end (resolution limit now : Int) : Int × Int :=
  (round_time now resolution - resolution * limit, round_time now resolution)

/-- An exception escaping a request handler. `keyError` models a Python
`KeyError` (e.g. an unknown key in `TIME_RESOLUTIONS`); `httpError` models
`tornado.web.HTTPError(status, msg)`, the only exception the handlers raise
deliberately. -/
inductive PyError where
  | keyError (key : String)
  | httpError (status : Nat) (msg : String)
deriving DecidableEq

/-- Modelled from the spec: `ValidationError` is not a class in the source;
section 7 of the spec defines it as the error surfaced as a 400-equivalent
client error. In the code the only 400-equivalent is a raised
`tornado.web.HTTPError` with status 400; an uncaught exception such as
`KeyError` is surfaced by tornado as a 500 server error instead. -/
def is_validation_error : PyError → Bool
  | PyError.httpError status _ => status == 400
  | _ => false

/-- A stats request body: `{"object_id": ..., "resolution": ..., "limit": ...}`. -/
structure StatsRequest where
  object_id : Int
  resolution : String
  limit : Int
deriving DecidableEq

/-- `StatsHandler.post`: look the resolution name up in `TIME_RESOLUTIONS`
(a missing name raises `KeyError`, as Python dict indexing does), compute the
window, and run the aggregation pipeline over the store. -/
def stats_post (req : StatsRequest) (now : Int) (store : List RollupRecord) :
    Except PyError (List (String × List (Int × Nat))) :=
  match TIME_RESOLUTIONS.lookup req.resolution with
  | some w =>
      let se := compute_start_and_end w req.limit now
      Except.ok (aggregate_events req.object_id se.1 se.2 store)
  | none => Except.error (PyError.keyError req.resolution)

/-- The record store of the aggregation example: two records of type A in
bucket 0 and one record of type B in bucket 3600, all for object 1. -/
def exampleRecords : List RollupRecord :=
  [⟨"A", 0, 1⟩, ⟨"A", 0, 1⟩, ⟨"B", 3600, 1⟩]

end EventsAggregator

namespace EventsAggregator

lemma round_time_eq_mul_ediv (t w : Int) : round_time t w = w * (t / w) := by
  have h := Int.ediv_add_emod t w
  unfold round_time
  omega

/-- C4: for every integer t and width w > 0, `_round_time` rounds toward
negative infinity: the result is at most t, exceeds t - w, is a multiple of w,
and is the largest multiple of w not exceeding t; the modulo it subtracts is
non-negative. -/
theorem round_time_is_floor (t w : Int) (hw : 0 < w) :
    round_time t w ≤ t ∧ t < round_time t w + w ∧ 0 ≤ t % w ∧
      w ∣ round_time t w ∧ ∀ m : Int, w ∣ m → m ≤ t → m ≤ round_time t w := by
  have hnn : 0 ≤ t % w := Int.emod_nonneg t (by omega)
  have hlt : t % w < w := Int.emod_lt_of_pos t hw
  refine ⟨by unfold round_time; omega, by unfold round_time; omega, hnn, ?_, ?_⟩
  · exact ⟨t / w, round_time_eq_mul_ediv t w⟩
  · intro m hm hmt
    obtain ⟨c, rfl⟩ := hm
    have hdiv : c ≤ t / w := by
      by_contra hc
      push_neg at hc
      have : t < w * c := by
        have h := Int.ediv_add_emod t w
        nlinarith [Int.mul_le_mul_of_nonneg_left (Int.add_one_le_iff.mpr hc) (le_of_lt hw)]
      omega
    calc w * c ≤ w * (t / w) := Int.mul_le_mul_of_nonneg_left hdiv (le_of_lt hw)
    _ = round_time t w := (round_time_eq_mul_ediv t w).symm

/-- C4 witness at t = -7, w = 3: the bucket is -9. -/
theorem round_time_is_floor_witness :
    round_time (-7) 3 ≤ -7 ∧ -7 < round_time (-7) 3 + 3 ∧ (3 : Int) ∣ round_time (-7) 3 :=
  ⟨(round_time_is_floor (-7) 3 (by decide)).1,
   (round_time_is_floor (-7) 3 (by decide)).2.1,
   (round_time_is_floor (-7) 3 (by decide)).2.2.2.1⟩

/-- C5: `_round_time` is idempotent, for every integer t and every width
(in particular every w > 0). -/
theorem round_time_idempotent (t w : Int) :
    round_time (round_time t w) w = round_time t w := by
  rw [round_time_eq_mul_ediv t w]
  unfold round_time
  rw [Int.mul_emod_right]
  omega

/-- C1: for a registry whose widths are positive, `EventsHandler.post` inserts
exactly one record per registered resolution, each with `type` and `object_id`
copied unchanged from the event and with its time set to
`floor(e.time / width) * width` for that resolution's width. -/
theorem events_post_rollup (data : RawEvent) (reg : List (String × Int))
    (hw : ∀ p ∈ reg, 0 < p.2) :
    events_post data reg =
      reg.map (fun p =>
        { type := data.type, time := Int.fdiv data.time p.2 * p.2,
          object_id := data.object_id }) := by
  unfold events_post prepare_timestamps_for_insert
  rw [List.map_map]
  refine List.map_congr_left ?_
  intro p hp
  have hpos := hw p hp
  have hfd : Int.fdiv data.time p.2 = data.time / p.2 :=
    Int.fdiv_eq_ediv data.time (le_of_lt hpos)
  simp only [Function.comp_apply, RollupRecord.mk.injEq]
  refine ⟨trivial, ?_, trivial⟩
  rw [round_time_eq_mul_ediv, hfd, mul_comm]

/-- C1 witness: event time 3661 with the default registry yields the hour
bucket 3600 and the day bucket 0, with type and object_id unchanged. -/
theorem events_post_rollup_witness :
    events_post ⟨"login", 7, 3661⟩ TIME_RESOLUTIONS =
      [⟨"login", 3600, 7⟩, ⟨"login", 0, 7⟩] := by
  rw [events_post_rollup ⟨"login", 7, 3661⟩ TIME_RESOLUTIONS (by decide)]
  decide

/-- C3: `_compute_start_and_end` returns the window whose end is the current
time rounded down and whose start is `end - width * limit`; limit 0 collapses
the window to the single bucket; a record enters the `$match` stage's output
exactly when it is stored, its object_id matches, and its time lies in the
inclusive window; and width 3600, limit 3, current time 10000 give the window
(-3600, 7200). -/
theorem compute_start_and_end_spec (w limit t : Int) :
    compute_start_and_end w limit t = (round_time t w - w * limit, round_time t w) ∧
      compute_start_and_end w 0 t = (round_time t w, round_time t w) ∧
      (∀ (store : List RollupRecord) (o : Int) (r : RollupRecord),
        r ∈ matchRecords o (compute_start_and_end w limit t).1
              (compute_start_and_end w limit t).2 store ↔
          r ∈ store ∧ r.object_id = o ∧
            (compute_start_and_end w limit t).1 ≤ r.time ∧
            r.time ≤ (compute_start_and_end w limit t).2) ∧
      compute_start_and_end 3600 3 10000 = (-3600, 7200) := by
  refine ⟨rfl, by unfold compute_start_and_end; norm_num, ?_, by decide⟩
  intro store o r
  unfold matchRecords
  simp only [List.mem_filter, Bool.and_eq_true, decide_eq_true_eq, beq_iff_eq]
  tauto

lemma mem_collectKeys_step {α κ : Type} [DecidableEq κ] (key : α → κ)
    (acc : List κ) (x : α) (k : κ) :
    (k ∈ if key x ∈ acc then acc else acc ++ [key x]) ↔ k ∈ acc ∨ key x = k := by
  by_cases h : key x ∈ acc
  · rw [if_pos h]
    constructor
    · exact Or.inl
    · rintro (hk | rfl)
      · exact hk
      · exact h
  · rw [if_neg h]
    simp [List.mem_append, eq_comm]

lemma collectKeys_go_mem {α κ : Type} [DecidableEq κ] (key : α → κ) :
    ∀ (xs : List α) (acc : List κ) (k : κ),
      (k ∈ xs.foldl (fun acc x => if key x ∈ acc then acc else acc ++ [key x]) acc) ↔
        k ∈ acc ∨ ∃ x ∈ xs, key x = k := by
  intro xs
  induction xs with
  | nil => intro acc k; simp
  | cons x xs ih =>
      intro acc k
      rw [List.foldl_cons, ih, mem_collectKeys_step]
      simp only [List.mem_cons]
      constructor
      · rintro ((hk | hx) | ⟨y, hy, hky⟩)
        · exact Or.inl hk
        · exact Or.inr ⟨x, Or.inl rfl, hx⟩
        · exact Or.inr ⟨y, Or.inr hy, hky⟩
      · rintro (hk | ⟨y, (rfl | hy), hky⟩)
        · exact Or.inl (Or.inl hk)
        · exact Or.inl (Or.inr hky)
        · exact Or.inr ⟨y, hy, hky⟩

lemma collectKeys_go_nodup {α κ : Type} [DecidableEq κ] (key : α → κ) :
    ∀ (xs : List α) (acc : List κ), acc.Nodup →
      (xs.foldl (fun acc x => if key x ∈ acc then acc else acc ++ [key x]) acc).Nodup := by
  intro xs
  induction xs with
  | nil => intro acc hacc; simpa using hacc
  | cons x xs ih =>
      intro acc hacc
      rw [List.foldl_cons]
      apply ih
      by_cases h : key x ∈ acc
      · rwa [if_pos h]
      · rw [if_neg h]
        rw [List.nodup_append]
        exact ⟨hacc, List.nodup_singleton _, by simpa [List.disjoint_singleton] using h⟩

lemma mem_collectKeys {α κ : Type} [DecidableEq κ] (key : α → κ) (xs : List α) (k : κ) :
    k ∈ collectKeys key xs ↔ ∃ x ∈ xs, key x = k := by
  unfold collectKeys
  rw [collectKeys_go_mem]
  simp

lemma collectKeys_nodup {α κ : Type} [DecidableEq κ] (key : α → κ) (xs : List α) :
    (collectKeys key xs).Nodup :=
  collectKeys_go_nodup key xs [] (List.nodup_nil)

lemma sum_map_add_fun {κ : Type} (K : List κ) (f g : κ → Nat) :
    (K.map (fun k => f k + g k)).sum = (K.map f).sum + (K.map g).sum := by
  induction K with
  | nil => simp
  | cons k K ih => simp [ih]; omega

lemma sum_map_ite_zero {κ : Type} [DecidableEq κ] (K : List κ) (a : κ) (v : Nat)
    (ha : a ∉ K) : (K.map (fun k => if a = k then v else 0)).sum = 0 := by
  induction K with
  | nil => simp
  | cons k K ih =>
      simp only [List.mem_cons, not_or] at ha
      simp [if_neg ha.1, ih ha.2]

lemma sum_map_ite_eq {κ : Type} [DecidableEq κ] (K : List κ) (a : κ) (v : Nat)
    (hnd : K.Nodup) (ha : a ∈ K) :
    (K.map (fun k => if a = k then v else 0)).sum = v := by
  induction K with
  | nil => exact absurd ha (List.not_mem_nil a)
  | cons k K ih =>
      rw [List.nodup_cons] at hnd
      rcases List.mem_cons.mp ha with rfl | hmem
      · simp [sum_map_ite_zero K a v hnd.1]
      · have hne : a ≠ k := fun h => hnd.1 (h ▸ hmem)
        simp [if_neg hne, ih hnd.2 hmem]

lemma partition_sum {α κ : Type} [DecidableEq κ] (key : α → κ) (g : α → Nat) :
    ∀ (xs : List α) (K : List κ), K.Nodup → (∀ x ∈ xs, key x ∈ K) →
      (K.map (fun k => ((xs.filter (fun x => decide (key x = k))).map g).sum)).sum
        = (xs.map g).sum := by
  intro xs
  induction xs with
  | nil => intro K _ _; simp
  | cons x xs ih =>
      intro K hnd hcov
      have hfun : ∀ k : κ,
          (((x :: xs).filter (fun y => decide (key y = k))).map g).sum
            = (if key x = k then g x else 0)
              + ((xs.filter (fun y => decide (key y = k))).map g).sum := by
        intro k
        by_cases h : key x = k
        · simp [List.filter_cons, h]
        · simp [List.filter_cons, h]
      simp only [hfun]
      rw [sum_map_add_fun]
      rw [sum_map_ite_eq K (key x) (g x) hnd (hcov x (List.mem_cons_self x xs))]
      rw [ih K hnd (fun y hy => hcov y (List.mem_cons_of_mem x hy))]
      simp

lemma sum_map_one {α : Type} (l : List α) : (l.map (fun _ => (1 : Nat))).sum = l.length := by
  induction l with
  | nil => rfl
  | cons x l ih => simp [ih]; omega

lemma aggregate_mem_spec {rs : List RollupRecord} {o s e : Int} {ty : String}
    {pts : List (Int × Nat)} {b : Int} {n : Nat}
    (h1 : (ty, pts) ∈ aggregate_events o s e rs) (h2 : (b, n) ∈ pts) :
    (ty, b) ∈ collectKeys (fun r => (r.type, r.time)) (matchRecords o s e rs) ∧
      n = ((matchRecords o s e rs).filter
            (fun r => decide ((r.type, r.time) = (ty, b)))).length := by
  unfold aggregate_events collectStage at h1
  rw [List.mem_map] at h1
  obtain ⟨ty0, hty0mem, heq⟩ := h1
  rw [Prod.mk.injEq] at heq
  obtain ⟨hty, hpts⟩ := heq
  subst hty
  rw [← hpts] at h2
  rw [List.mem_map] at h2
  obtain ⟨c, hc, hceq⟩ := h2
  rw [Prod.mk.injEq] at hceq
  obtain ⟨hb, hn⟩ := hceq
  rw [List.mem_filter] at hc
  obtain ⟨hcmem, hcty⟩ := hc
  rw [decide_eq_true_eq] at hcty
  unfold groupCount at hcmem
  rw [List.mem_map] at hcmem
  obtain ⟨k, hkmem, hkeq⟩ := hcmem
  subst hkeq
  have hk : k = (ty0, b) := by
    obtain ⟨k1, k2⟩ := k
    exact Prod.ext hcty hb
  subst hk
  exact ⟨hkmem, hn.symm⟩

/-- C2: the stats aggregation is the two-stage grouping of the claim: every
point (b, n) reported under a type ty carries as n exactly the number of
matched records in the group keyed by (ty, b); and on the example store of
records (A,0), (A,0), (B,3600) for object 1 with window 0..3600 the result is
A mapped to the single point (0, 2) and B to (3600, 1). -/
theorem aggregate_two_stage_grouping :
    (∀ (rs : List RollupRecord) (o s e : Int) (ty : String)
        (pts : List (Int × Nat)) (b : Int) (n : Nat),
      (ty, pts) ∈ aggregate_events o s e rs → (b, n) ∈ pts →
        n = ((matchRecords o s e rs).filter
              (fun r => decide ((r.type, r.time) = (ty, b)))).length) ∧
    aggregate_events 1 0 3600 exampleRecords =
      [("A", [((0 : Int), 2)]), ("B", [((3600 : Int), 1)])] := by
  constructor
  · intro rs o s e ty pts b n h1 h2
    exact (aggregate_mem_spec h1 h2).2
  · decide

/-- C2 witness: applying the grouping theorem at the example store, the count
reported for type A at bucket 0 is the size of its record group, namely 2. -/
theorem aggregate_two_stage_grouping_witness :
    2 = ((matchRecords 1 0 3600 exampleRecords).filter
          (fun r => decide ((r.type, r.time) = ("A", (0 : Int))))).length :=
  aggregate_two_stage_grouping.1 exampleRecords 1 0 3600 "A" [((0 : Int), 2)] 0 2
    (by decide) (by decide)

/-- C9: the aggregation conserves the record count: the sum of the `events`
fields over every type and every point of the stats result equals the number
of stored records passing the `$match` stage. -/
theorem aggregate_conserves_count (rs : List RollupRecord) (o s e : Int) :
    ((aggregate_events o s e rs).map (fun p => (p.2.map (fun q => q.2)).sum)).sum
      = (matchRecords o s e rs).length := by
  have hA : ∀ cs : List ((String × Int) × Nat),
      ((collectStage cs).map (fun p => (p.2.map (fun q => q.2)).sum)).sum
        = (cs.map (fun c => c.2)).sum := by
    intro cs
    unfold collectStage
    rw [List.map_map]
    have hnd := collectKeys_nodup (fun c : (String × Int) × Nat => c.1.1) cs
    have hcov : ∀ c ∈ cs, c.1.1 ∈ collectKeys (fun c : (String × Int) × Nat => c.1.1) cs :=
      fun c hc => (mem_collectKeys _ _ _).mpr ⟨c, hc, rfl⟩
    have hps := partition_sum (fun c : (String × Int) × Nat => c.1.1)
      (fun c => c.2) cs _ hnd hcov
    simp only [Function.comp_def, List.map_map] at hps ⊢
    exact hps
  have hB : ∀ ms : List RollupRecord,
      ((groupCount ms).map (fun c => c.2)).sum = ms.length := by
    intro ms
    unfold groupCount
    rw [List.map_map, ← sum_map_one ms]
    have hnd := collectKeys_nodup (fun r : RollupRecord => (r.type, r.time)) ms
    have hcov : ∀ r ∈ ms, (r.type, r.time) ∈
        collectKeys (fun r : RollupRecord => (r.type, r.time)) ms :=
      fun r hr => (mem_collectKeys _ _ _).mpr ⟨r, hr, rfl⟩
    have hps := partition_sum (fun r : RollupRecord => (r.type, r.time))
      (fun _ => (1 : Nat)) ms _ hnd hcov
    simp only [sum_map_one, Function.comp_def, List.map_map] at hps ⊢
    exact hps
  unfold aggregate_events
  rw [hA, hB]

/-- C10: every reported point has a strictly positive count and a bucket time
inside the inclusive query window: empty buckets are omitted rather than
reported as zero, and no point outside the window appears. -/
theorem aggregate_points_in_window (rs : List RollupRecord) (o s e : Int)
    (ty : String) (pts : List (Int × Nat)) (b : Int) (n : Nat)
    (h1 : (ty, pts) ∈ aggregate_events o s e rs) (h2 : (b, n) ∈ pts) :
    1 ≤ n ∧ s ≤ b ∧ b ≤ e := by
  obtain ⟨hkey, hcount⟩ := aggregate_mem_spec h1 h2
  rw [mem_collectKeys] at hkey
  obtain ⟨r, hr, hrk⟩ := hkey
  have hrw := hr
  unfold matchRecords at hrw
  rw [List.mem_filter] at hrw
  obtain ⟨-, hcond⟩ := hrw
  simp only [Bool.and_eq_true, decide_eq_true_eq, beq_iff_eq] at hcond
  obtain ⟨⟨-, hs⟩, he⟩ := hcond
  have hbt : r.time = b := congrArg Prod.snd hrk
  have hrfilter : r ∈ (matchRecords o s e rs).filter
      (fun r => decide ((r.type, r.time) = (ty, b))) :=
    List.mem_filter.mpr ⟨hr, by simp [hrk]⟩
  have hpos : 0 < ((matchRecords o s e rs).filter
      (fun r => decide ((r.type, r.time) = (ty, b)))).length :=
    List.length_pos.mpr (List.ne_nil_of_mem hrfilter)
  refine ⟨by omega, by omega, by omega⟩

/-- C10 witness: at the example store the point (0, 2) of type A has a
positive count and lies in the window 0..3600. -/
theorem aggregate_points_in_window_witness :
    1 ≤ 2 ∧ (0 : Int) ≤ 0 ∧ (0 : Int) ≤ 3600 :=
  aggregate_points_in_window exampleRecords 1 0 3600 "A" [((0 : Int), 2)] 0 2
    (by decide) (by decide)

/-- C6 counterexample: for the event with type A, object 1 and time 0, the
hour bucket and the day bucket coincide at 0, so ingesting the event twice
stores four identical records, and a stats query for resolution hour with
limit 0 at current time 0 (window 0..0, which contains the event's bucket)
reports an aggregated count of 4 for the pair (A, 0), not the count of 2 the
claim asserts. -/
theorem double_ingest_count_counterexample :
    events_post ⟨"A", 1, 0⟩ TIME_RESOLUTIONS ++ events_post ⟨"A", 1, 0⟩ TIME_RESOLUTIONS
        = [⟨"A", 0, 1⟩, ⟨"A", 0, 1⟩, ⟨"A", 0, 1⟩, ⟨"A", 0, 1⟩] ∧
      stats_post ⟨1, "hour", 0⟩ 0
          (events_post ⟨"A", 1, 0⟩ TIME_RESOLUTIONS ++ events_post ⟨"A", 1, 0⟩ TIME_RESOLUTIONS)
        = Except.ok [("A", [((0 : Int), 4)])] ∧
      aggregate_events 1 0 0
          (events_post ⟨"A", 1, 0⟩ TIME_RESOLUTIONS ++ events_post ⟨"A", 1, 0⟩ TIME_RESOLUTIONS)
        ≠ [("A", [((0 : Int), 2)])] :=
  ⟨by decide, rfl, by decide⟩

/-- C6 amended: ingesting an event twice stores two records per registered
resolution, and for any window containing a bucket b the aggregated count for
the pair (type, b) is 2 times the number of registered resolutions that bucket
the event's time to b; this is 2 exactly when a single resolution does, and
more when several resolutions' buckets coincide. -/
theorem double_ingest_counts (e : RawEvent) (reg : List (String × Int))
    (s endT b : Int) (hs : s ≤ b) (he : b ≤ endT) :
    (events_post e reg ++ events_post e reg).length = 2 * reg.length ∧
      ((matchRecords e.object_id s endT (events_post e reg ++ events_post e reg)).filter
          (fun r => decide ((r.type, r.time) = (e.type, b)))).length
        = 2 * (reg.filter (fun p => decide (round_time e.time p.2 = b))).length := by
  constructor
  · simp [events_post, prepare_timestamps_for_insert]
    omega
  · have hsplit : matchRecords e.object_id s endT (events_post e reg ++ events_post e reg)
        = matchRecords e.object_id s endT (events_post e reg)
          ++ matchRecords e.object_id s endT (events_post e reg) := by
      unfold matchRecords
      exact List.filter_append _ _
    rw [hsplit, List.filter_append, List.length_append]
    have hone : ((matchRecords e.object_id s endT (events_post e reg)).filter
          (fun r => decide ((r.type, r.time) = (e.type, b)))).length
        = (reg.filter (fun p => decide (round_time e.time p.2 = b))).length := by
      unfold matchRecords events_post prepare_timestamps_for_insert
      rw [List.map_map, List.filter_filter, List.filter_map, List.length_map]
      refine congrArg List.length (List.filter_congr ?_)
      intro p hp
      by_cases h : round_time e.time p.2 = b
      · simp [Function.comp_def, h, hs, he]
      · simp [Function.comp_def, h, Prod.mk.injEq]
    omega

/-- C6 witness: event time 3661 under the default registry, window 0..7200,
bucket 3600: double ingest stores four records in all, and the count for the
pair (A, 3600) is 2 times the one resolution (hour) that buckets 3661 to
3600. -/
theorem double_ingest_counts_witness :
    (events_post ⟨"A", 1, 3661⟩ TIME_RESOLUTIONS
        ++ events_post ⟨"A", 1, 3661⟩ TIME_RESOLUTIONS).length
        = 2 * TIME_RESOLUTIONS.length ∧
      ((matchRecords 1 0 7200 (events_post ⟨"A", 1, 3661⟩ TIME_RESOLUTIONS
            ++ events_post ⟨"A", 1, 3661⟩ TIME_RESOLUTIONS)).filter
          (fun r => decide ((r.type, r.time) = ("A", (3600 : Int))))).length
        = 2 * (TIME_RESOLUTIONS.filter
            (fun p => decide (round_time 3661 p.2 = 3600))).length :=
  double_ingest_counts ⟨"A", 1, 3661⟩ TIME_RESOLUTIONS 0 7200 3600 (by decide) (by decide)

/-- C7 evaluated at the failing input: a stats request naming the unregistered
resolution "minute" makes `StatsHandler.post` raise KeyError, an uncaught
exception that tornado surfaces as a 500 server error, not the 400-equivalent
ValidationError the claim requires; no registered resolution is silently
substituted, since no aggregation result is produced at all. -/
theorem stats_unknown_resolution_keyerror :
    stats_post ⟨1, "minute", 3⟩ 10000 [] = Except.error (PyError.keyError "minute") ∧
      is_validation_error (PyError.keyError "minute") = false :=
  ⟨rfl, rfl⟩

/-- C8 evaluated at the failing input: `EventsHandler.post` performs no
validation of its own; the event with empty type is accepted and one record
per resolution, carrying the empty type, is written, where the claim requires
a ValidationError and no written records. -/
theorem ingest_no_validation :
    events_post ⟨"", 1, 0⟩ TIME_RESOLUTIONS = [⟨"", 0, 1⟩, ⟨"", 0, 1⟩] := by
  decide

end EventsAggregator
